import Mathlib

/-!
Verification of the TelegramSerial asynchronous delivery subsystem.

The repository ships only the hardware-test sketch and the README under
`src/`; the library implementation itself (line buffer, bounded FIFO
queue, rate limiter, delivery engine) is not present.  Every definition
below is therefore modelled from the specification document, faithful to
its words, and the claims are settled against this model.
-/

namespace TelegramSerial

/-- Modelled from the spec: Format Mode — `plain` or `monospace`
(Markdown / monospace-wrapped). -/
inductive FormatMode where
  | plain
  | monospace
  deriving DecidableEq

/-- Modelled from the spec: the recognized configuration options of the
missing TelegramSerial library — line buffer size `L` (default 512),
queue capacity `Q` (default 16), minimum send interval in milliseconds
(default 1200), maximum retries per message (default 2), and the format
mode (Plain or Monospace-wrapped). -/
structure Config where
  lineBufSize : Nat
  queueSize : Nat
  sendIntervalMs : Nat
  maxMsgRetries : Nat
  fmt : FormatMode
  deriving DecidableEq

/-- Modelled from the spec: an OutboundMessage — immutable text payload,
a retry counter that starts at 0, and the enqueue timestamp. -/
structure OutboundMessage where
  text : List Char
  retries : Nat
  ts : Nat
  deriving DecidableEq

/-- Modelled from the spec: the truncation marker appended when a line or
message text is cut down to the configured limit.  The spec fixes only
that a marker is appended; a single marker character is used here. -/
def truncMarker : Char := Char.ofNat 126

/-- Modelled from the spec: texts beyond the configured limit `L` are cut
with a truncation marker appended, so the stored length equals `L`. -/
def clip (L : Nat) (s : List Char) : List Char :=
  if s.length ≤ L then s else s.take (L - 1) ++ [truncMarker]

/-- Modelled from the spec: the missing Message Queue `enqueue` — if
occupancy equals capacity, evict the head (oldest) entry first, then
append the message at the tail; never fails except on a zero-capacity
misconfiguration. -/
def enqueue (Q : Nat) (q : List OutboundMessage) (m : OutboundMessage) :
    Option (List OutboundMessage) :=
  if Q = 0 then none
  else if q.length = Q then some (q.drop 1 ++ [m])
  else some (q ++ [m])

/-- Modelled from the spec: the in-memory state of the delivery
subsystem — the pending FIFO queue, the line-assembly buffer, and the
rate limiter's last-send timestamp. -/
structure TgState where
  queue : List OutboundMessage
  lineBuf : List Char
  lastSendTs : Nat
  deriving DecidableEq

/-- The initial state: empty queue, empty line buffer, epoch clock. -/
def initState : TgState := ⟨[], [], 0⟩

/-- Modelled from the spec: `send(text)` bypasses the line buffer and
directly enqueues one OutboundMessage built from the given text, itself
subject to the length truncation rule; returns success based only on
whether the entry was accepted into the queue (always, unless capacity
is zero). -/
def send (cfg : Config) (now : Nat) (st : TgState) (t : List Char) :
    TgState × Bool :=
  match enqueue cfg.queueSize st.queue ⟨clip cfg.lineBufSize t, 0, now⟩ with
  | none => (st, false)
  | some q => ({ st with queue := q }, true)

/-- Iterates `send` over a list of texts, keeping only the state. -/
def sendAll (cfg : Config) (now : Nat) (texts : List (List Char))
    (st : TgState) : TgState :=
  match texts with
  | [] => st
  | t :: ts => sendAll cfg now ts (send cfg now st t).1

/-- The queue-level trace of a sequence of `send` calls: each text is
clipped and enqueued in turn (a failing enqueue leaves the queue as is). -/
def enqueueTexts (cfg : Config) (now : Nat) (texts : List (List Char))
    (q : List OutboundMessage) : List OutboundMessage :=
  match texts with
  | [] => q
  | t :: ts =>
    enqueueTexts cfg now ts
      ((enqueue cfg.queueSize q ⟨clip cfg.lineBufSize t, 0, now⟩).getD q)

/-- Modelled from the spec: the line terminator recognized by the stream
facade (newline). -/
def lineTerminator : Char := Char.ofNat 10

/-- Modelled from the spec: marking a force-flushed overflowing line as
truncated — the marker replaces the last buffered character so the
message stays within the configured limit `L`. -/
def markTruncated (L : Nat) (s : List Char) : List Char :=
  s.take (L - 1) ++ [truncMarker]

/-- Helper of the line buffer: transfer a completed line into the queue
as one OutboundMessage (no-op on the queue when capacity is zero). -/
def enqueueLine (cfg : Config) (now : Nat) (st : TgState)
    (t : List Char) : TgState :=
  match enqueue cfg.queueSize st.queue ⟨t, 0, now⟩ with
  | none => st
  | some q => { st with queue := q }

/-- Modelled from the spec: the byte-oriented write of the missing stream
facade.  A line terminator transfers the buffered content (terminator
excluded) as one OutboundMessage and clears the buffer; a byte whose
append would exceed capacity `L` force-flushes the buffer as a message
marked truncated and then starts a new line; any other byte is appended. -/
def writeByte (cfg : Config) (now : Nat) (st : TgState) (b : Char) :
    TgState :=
  if b = lineTerminator then
    { enqueueLine cfg now st st.lineBuf with lineBuf := [] }
  else if cfg.lineBufSize ≤ st.lineBuf.length then
    { enqueueLine cfg now st (markTruncated cfg.lineBufSize st.lineBuf) with
        lineBuf := [b] }
  else
    { st with lineBuf := st.lineBuf ++ [b] }

/-- Iterates `writeByte` over a byte sequence. -/
def writeBytes (cfg : Config) (now : Nat) (bs : List Char)
    (st : TgState) : TgState :=
  match bs with
  | [] => st
  | b :: rest => writeBytes cfg now rest (writeByte cfg now st b)

/-- Modelled from the spec: the Rate Limiter — `permitsSendNow(nowTs)`
is true only if `nowTs - lastSendTs ≥ minInterval`. -/
def permitsSendNow (minInterval lastSendTs nowTs : Nat) : Bool :=
  decide (minInterval ≤ nowTs - lastSendTs)

/-- The default configuration from the spec (plain format mode). -/
def defaultConfig : Config := ⟨512, 16, 1200, 2, FormatMode.plain⟩

/-- Modelled from the spec: the fixed opening delimiter the Monospace
mode wraps around the payload (a Markdown code fence). -/
def monoOpen : List Char := String.toList "\x60\x60\x60\n"

/-- Modelled from the spec: the fixed closing delimiter of the Monospace
wrapping. -/
def monoClose : List Char := String.toList "\n\x60\x60\x60"

/-- Modelled from the spec: rendering an OutboundMessage's text into the
transport payload — Plain passes it through, Monospace wraps it in the
fixed delimiter pair. -/
def render (fmt : FormatMode) (s : List Char) : List Char :=
  match fmt with
  | .plain => s
  | .monospace => monoOpen ++ s ++ monoClose

/-- The external inputs a single tick observes: the monotonic clock, the
cached WiFi link state, and the transport outcome were a send attempted. -/
structure TickEnv where
  now : Nat
  wifiUp : Bool
  sendOk : Bool
  deriving DecidableEq

/-- What a tick did: nothing (empty queue), skipped (disconnected or
rate-limited), or performed exactly one transport attempt with the
rendered payload and its outcome. -/
inductive TickAction where
  | idle
  | skip
  | attempt (payload : List Char) (ok : Bool)
  deriving DecidableEq

/-- Number of network operations an action stands for. -/
def netOps : TickAction → Nat
  | .attempt _ _ => 1
  | _ => 0

/-- Modelled from the spec: the Delivery Engine's per-tick step
(`update()`).  Empty queue → idle; not connected → skip; rate limiter
forbids → skip; otherwise peek the head, render per format mode, perform
exactly one transport attempt, record `lastSendTs` regardless of
outcome; on success remove the head, on failure increment the head's
retry counter and remove it only once the counter exceeds `maxRetries`. -/
def tick (cfg : Config) (e : TickEnv) (st : TgState) :
    TgState × TickAction :=
  match st.queue with
  | [] => (st, .idle)
  | m :: rest =>
    if e.wifiUp = false then (st, .skip)
    else if permitsSendNow cfg.sendIntervalMs st.lastSendTs e.now = false then
      (st, .skip)
    else
      let payload := render cfg.fmt m.text
      if e.sendOk then
        ({ st with queue := rest, lastSendTs := e.now }, .attempt payload true)
      else if cfg.maxMsgRetries < m.retries + 1 then
        ({ st with queue := rest, lastSendTs := e.now }, .attempt payload false)
      else
        ({ st with
            queue := ({ m with retries := m.retries + 1 } :: rest),
            lastSendTs := e.now }, .attempt payload false)

/-- Iterates `tick` over a list of tick environments. -/
def runTicks (cfg : Config) (envs : List TickEnv) (st : TgState) : TgState :=
  match envs with
  | [] => st
  | e :: es => runTicks cfg es (tick cfg e st).1

/-- The clock values at which a run of ticks performed a transport
attempt. -/
def attemptTimes (cfg : Config) (envs : List TickEnv) (st : TgState) :
    List Nat :=
  match envs with
  | [] => []
  | e :: es =>
    match tick cfg e st with
    | (st1, .attempt _ _) => e.now :: attemptTimes cfg es st1
    | (st1, _) => attemptTimes cfg es st1

/-- Counts the transport attempts of an all-failing run until the
original head message is removed from the queue (the queue shrinks). -/
def attemptsOnHead (cfg : Config) (envs : List TickEnv) (st : TgState) :
    Nat :=
  match envs with
  | [] => 0
  | e :: es =>
    match tick cfg { e with sendOk := false } st with
    | (st1, a) =>
      if st1.queue.length < st.queue.length then netOps a
      else netOps a + attemptsOnHead cfg es st1

/-- Modelled from the spec: the platform WiFi status codes the sketch
compares against (`WiFi.status()`). -/
inductive WlStatus where
  | wlIdle
  | wlNoSsidAvail
  | wlConnected
  | wlConnectFailed
  | wlDisconnected
  deriving DecidableEq

/-- Modelled from the spec: the public `connected()` query — returns true
exactly when the platform WiFi status reports connected. -/
def connected (w : WlStatus) : Bool :=
  match w with
  | .wlConnected => true
  | _ => false

/-- Erases the rendered payload of an action, keeping its shape and the
transport outcome. -/
def erasePayload : TickAction → TickAction
  | .attempt _ ok => .attempt [] ok
  | a => a

/-! ### Queue lemmas -/

lemma enqueue_eq_none_iff (Q : Nat) (q : List OutboundMessage)
    (m : OutboundMessage) : enqueue Q q m = none ↔ Q = 0 := by
  unfold enqueue
  split_ifs <;> simp_all

lemma enqueue_full (Q : Nat) (q : List OutboundMessage)
    (m : OutboundMessage) (hQ : Q ≠ 0) (h : q.length = Q) :
    enqueue Q q m = some (q.drop 1 ++ [m]) := by
  simp [enqueue, hQ, h]

lemma enqueue_not_full (Q : Nat) (q : List OutboundMessage)
    (m : OutboundMessage) (hQ : Q ≠ 0) (h : q.length ≠ Q) :
    enqueue Q q m = some (q ++ [m]) := by
  simp [enqueue, hQ, h]

lemma send_eq_full (cfg : Config) (now : Nat) (st : TgState) (t : List Char)
    (hQ : cfg.queueSize ≠ 0) (h : st.queue.length = cfg.queueSize) :
    send cfg now st t =
      ({ st with queue :=
          st.queue.drop 1 ++ [⟨clip cfg.lineBufSize t, 0, now⟩] }, true) := by
  simp [send, enqueue_full _ _ _ hQ h]

lemma send_eq_not_full (cfg : Config) (now : Nat) (st : TgState)
    (t : List Char) (hQ : cfg.queueSize ≠ 0)
    (h : st.queue.length ≠ cfg.queueSize) :
    send cfg now st t =
      ({ st with queue :=
          st.queue ++ [⟨clip cfg.lineBufSize t, 0, now⟩] }, true) := by
  simp [send, enqueue_not_full _ _ _ hQ h]

lemma send_fst_queue (cfg : Config) (now : Nat) (st : TgState)
    (t : List Char) :
    (send cfg now st t).1.queue =
      (enqueue cfg.queueSize st.queue
          ⟨clip cfg.lineBufSize t, 0, now⟩).getD st.queue := by
  unfold send
  cases h : enqueue cfg.queueSize st.queue ⟨clip cfg.lineBufSize t, 0, now⟩ <;>
    simp [h]

lemma sendAll_queue (cfg : Config) (now : Nat) :
    ∀ (texts : List (List Char)) (st : TgState),
      (sendAll cfg now texts st).queue =
        enqueueTexts cfg now texts st.queue := by
  intro texts
  induction texts with
  | nil => intro st; rfl
  | cons t ts ih =>
    intro st
    show (sendAll cfg now ts (send cfg now st t).1).queue = _
    rw [ih, send_fst_queue]
    rfl

lemma enqueue_step_length_le (cfg : Config)
    (q : List OutboundMessage) (m : OutboundMessage)
    (hQ : 0 < cfg.queueSize) (h : q.length ≤ cfg.queueSize) :
    ((enqueue cfg.queueSize q m).getD q).length ≤ cfg.queueSize := by
  by_cases hf : q.length = cfg.queueSize
  · rw [enqueue_full cfg.queueSize q m (by omega) hf]
    simp
    omega
  · rw [enqueue_not_full cfg.queueSize q m (by omega) hf]
    simp
    omega

lemma enqueueTexts_length_le (cfg : Config) (now : Nat)
    (hQ : 0 < cfg.queueSize) :
    ∀ (texts : List (List Char)) (q : List OutboundMessage),
      q.length ≤ cfg.queueSize →
      (enqueueTexts cfg now texts q).length ≤ cfg.queueSize := by
  intro texts
  induction texts with
  | nil => intro q h; exact h
  | cons t ts ih =>
    intro q h
    exact ih _ (enqueue_step_length_le cfg q _ hQ h)

lemma enqueueTexts_map_text (cfg : Config) (now : Nat)
    (hQ : 0 < cfg.queueSize) :
    ∀ (texts : List (List Char)) (q : List OutboundMessage),
      q.length ≤ cfg.queueSize →
      (enqueueTexts cfg now texts q).map OutboundMessage.text =
        (q.map OutboundMessage.text ++
            texts.map (clip cfg.lineBufSize)).drop
          (q.length + texts.length - cfg.queueSize) := by
  intro texts
  induction texts with
  | nil =>
    intro q h
    simp [enqueueTexts, Nat.sub_eq_zero_of_le h]
  | cons t ts ih =>
    intro q h
    show (enqueueTexts cfg now ts
        ((enqueue cfg.queueSize q ⟨clip cfg.lineBufSize t, 0, now⟩).getD
          q)).map OutboundMessage.text = _
    by_cases hf : q.length = cfg.queueSize
    · rw [enqueue_full cfg.queueSize q _ (by omega) hf]
      simp only [Option.getD_some]
      obtain ⟨a, q0, rfl⟩ : ∃ a q0, q = a :: q0 := by
        cases q with
        | nil =>
          exfalso
          simp at hf
          omega
        | cons a q0 => exact ⟨a, q0, rfl⟩
      simp only [List.length_cons] at hf
      simp only [List.drop_succ_cons, List.drop_zero]
      have hih := ih
        (q0 ++ [(⟨clip cfg.lineBufSize t, 0, now⟩ : OutboundMessage)])
        (by simp; omega)
      rw [hih]
      have hidx1 :
          (q0 ++
              [(⟨clip cfg.lineBufSize t, 0, now⟩ : OutboundMessage)]).length +
              ts.length - cfg.queueSize = ts.length := by
        simp
        omega
      have hidx2 :
          (a :: q0).length + (t :: ts).length - cfg.queueSize =
            ts.length + 1 := by
        simp
        omega
      rw [hidx1, hidx2]
      simp [List.map_append, List.append_assoc]
    · rw [enqueue_not_full cfg.queueSize q _ (by omega) hf]
      simp only [Option.getD_some]
      have hih := ih
        (q ++ [(⟨clip cfg.lineBufSize t, 0, now⟩ : OutboundMessage)])
        (by simp; omega)
      rw [hih]
      have hidx :
          (q ++
              [(⟨clip cfg.lineBufSize t, 0, now⟩ : OutboundMessage)]).length +
              ts.length - cfg.queueSize =
            q.length + (t :: ts).length - cfg.queueSize := by
        simp
        omega
      rw [hidx]
      simp

/-! ### Tick characterization lemmas -/

lemma tick_empty (cfg : Config) (e : TickEnv) (st : TgState)
    (hq : st.queue = []) : tick cfg e st = (st, .idle) := by
  simp [tick, hq]

lemma tick_noconn (cfg : Config) (e : TickEnv) (st : TgState)
    (m : OutboundMessage) (rest : List OutboundMessage)
    (hq : st.queue = m :: rest) (hw : e.wifiUp = false) :
    tick cfg e st = (st, .skip) := by
  simp [tick, hq, hw]

lemma tick_ratelimited (cfg : Config) (e : TickEnv) (st : TgState)
    (m : OutboundMessage) (rest : List OutboundMessage)
    (hq : st.queue = m :: rest) (hw : e.wifiUp = true)
    (hp : permitsSendNow cfg.sendIntervalMs st.lastSendTs e.now = false) :
    tick cfg e st = (st, .skip) := by
  simp [tick, hq, hw, hp]

lemma tick_success (cfg : Config) (e : TickEnv) (st : TgState)
    (m : OutboundMessage) (rest : List OutboundMessage)
    (hq : st.queue = m :: rest) (hw : e.wifiUp = true)
    (hp : permitsSendNow cfg.sendIntervalMs st.lastSendTs e.now = true)
    (hs : e.sendOk = true) :
    tick cfg e st =
      ({ st with queue := rest, lastSendTs := e.now },
        .attempt (render cfg.fmt m.text) true) := by
  simp [tick, hq, hw, hp, hs]

lemma tick_fail_drop (cfg : Config) (e : TickEnv) (st : TgState)
    (m : OutboundMessage) (rest : List OutboundMessage)
    (hq : st.queue = m :: rest) (hw : e.wifiUp = true)
    (hp : permitsSendNow cfg.sendIntervalMs st.lastSendTs e.now = true)
    (hs : e.sendOk = false) (hr : cfg.maxMsgRetries < m.retries + 1) :
    tick cfg e st =
      ({ st with queue := rest, lastSendTs := e.now },
        .attempt (render cfg.fmt m.text) false) := by
  simp [tick, hq, hw, hp, hs, hr]

lemma tick_fail_retry (cfg : Config) (e : TickEnv) (st : TgState)
    (m : OutboundMessage) (rest : List OutboundMessage)
    (hq : st.queue = m :: rest) (hw : e.wifiUp = true)
    (hp : permitsSendNow cfg.sendIntervalMs st.lastSendTs e.now = true)
    (hs : e.sendOk = false) (hr : m.retries + 1 ≤ cfg.maxMsgRetries) :
    tick cfg e st =
      ({ st with
          queue := ({ m with retries := m.retries + 1 } :: rest),
          lastSendTs := e.now },
        .attempt (render cfg.fmt m.text) false) := by
  have hr2 : ¬cfg.maxMsgRetries < m.retries + 1 := by omega
  simp [tick, hq, hw, hp, hs, hr2]

lemma tick_state_of_netOps_zero (cfg : Config) (e : TickEnv) (st : TgState)
    (h : netOps (tick cfg e st).2 = 0) : (tick cfg e st).1 = st := by
  rcases hq : st.queue with _ | ⟨m, rest⟩
  · rw [tick_empty cfg e st hq]
  · rcases hw : e.wifiUp with _ | _
    · rw [tick_noconn cfg e st m rest hq hw]
    · rcases hp : permitsSendNow cfg.sendIntervalMs st.lastSendTs e.now with
        _ | _
      · rw [tick_ratelimited cfg e st m rest hq hw hp]
      · exfalso
        rcases hs : e.sendOk with _ | _
        · by_cases hr : cfg.maxMsgRetries < m.retries + 1
          · rw [tick_fail_drop cfg e st m rest hq hw hp hs hr] at h
            simp [netOps] at h
          · rw [tick_fail_retry cfg e st m rest hq hw hp hs (by omega)] at h
            simp [netOps] at h
        · rw [tick_success cfg e st m rest hq hw hp hs] at h
          simp [netOps] at h

lemma tick_attempt_facts (cfg : Config) (e : TickEnv) (st : TgState)
    (h : netOps (tick cfg e st).2 = 1) :
    (tick cfg e st).1.lastSendTs = e.now ∧
    cfg.sendIntervalMs ≤ e.now - st.lastSendTs ∧
    e.wifiUp = true := by
  rcases hq : st.queue with _ | ⟨m, rest⟩
  · rw [tick_empty cfg e st hq] at h ⊢
    simp [netOps] at h
  · rcases hw : e.wifiUp with _ | _
    · rw [tick_noconn cfg e st m rest hq hw] at h
      simp [netOps] at h
    · rcases hp : permitsSendNow cfg.sendIntervalMs st.lastSendTs e.now with
        _ | _
      · rw [tick_ratelimited cfg e st m rest hq hw hp] at h
        simp [netOps] at h
      · have hperm : cfg.sendIntervalMs ≤ e.now - st.lastSendTs := by
          simpa [permitsSendNow] using hp
        rcases hs : e.sendOk with _ | _
        · by_cases hr : cfg.maxMsgRetries < m.retries + 1
          · rw [tick_fail_drop cfg e st m rest hq hw hp hs hr]
            exact ⟨rfl, hperm, rfl⟩
          · rw [tick_fail_retry cfg e st m rest hq hw hp hs (by omega)]
            exact ⟨rfl, hperm, rfl⟩
        · rw [tick_success cfg e st m rest hq hw hp hs]
          exact ⟨rfl, hperm, rfl⟩

lemma netOps_tick_le_one (cfg : Config) (e : TickEnv) (st : TgState) :
    netOps (tick cfg e st).2 ≤ 1 := by
  rcases hq : st.queue with _ | ⟨m, rest⟩
  · rw [tick_empty cfg e st hq]
    simp [netOps]
  · rcases hw : e.wifiUp with _ | _
    · rw [tick_noconn cfg e st m rest hq hw]
      simp [netOps]
    · rcases hp : permitsSendNow cfg.sendIntervalMs st.lastSendTs e.now with
        _ | _
      · rw [tick_ratelimited cfg e st m rest hq hw hp]
        simp [netOps]
      · rcases hs : e.sendOk with _ | _
        · by_cases hr : cfg.maxMsgRetries < m.retries + 1
          · rw [tick_fail_drop cfg e st m rest hq hw hp hs hr]
            simp [netOps]
          · rw [tick_fail_retry cfg e st m rest hq hw hp hs (by omega)]
            simp [netOps]
        · rw [tick_success cfg e st m rest hq hw hp hs]
          simp [netOps]

lemma attemptTimes_cons (cfg : Config) (e : TickEnv) (es : List TickEnv)
    (st : TgState) :
    attemptTimes cfg (e :: es) st =
      (if netOps (tick cfg e st).2 = 1
       then e.now :: attemptTimes cfg es (tick cfg e st).1
       else attemptTimes cfg es (tick cfg e st).1) := by
  rcases h : tick cfg e st with ⟨st1, a⟩
  cases a <;> simp [attemptTimes, h, netOps]

lemma attemptTimes_spacing (cfg : Config) :
    ∀ (envs : List TickEnv) (st : TgState),
      List.Chain' (fun a b => cfg.sendIntervalMs ≤ b - a)
        (attemptTimes cfg envs st) ∧
      (∀ u, (attemptTimes cfg envs st).head? = some u →
        cfg.sendIntervalMs ≤ u - st.lastSendTs) := by
  intro envs
  induction envs with
  | nil =>
    intro st
    constructor
    · simp [attemptTimes]
    · intro u hu
      simp [attemptTimes] at hu
  | cons e es ih =>
    intro st
    rw [attemptTimes_cons]
    by_cases hn : netOps (tick cfg e st).2 = 1
    · rw [if_pos hn]
      have hfacts := tick_attempt_facts cfg e st hn
      constructor
      · rw [List.chain'_cons']
        refine ⟨?_, (ih (tick cfg e st).1).1⟩
        intro b hb
        have hb2 := (ih (tick cfg e st).1).2 b hb
        rw [hfacts.1] at hb2
        exact hb2
      · intro u hu
        simp only [List.head?_cons, Option.some.injEq] at hu
        subst hu
        exact hfacts.2.1
    · rw [if_neg hn]
      have hst : (tick cfg e st).1 = st := by
        have h01 := netOps_tick_le_one cfg e st
        exact tick_state_of_netOps_zero cfg e st (by omega)
      rw [hst]
      exact ih st

/-! ### Retry/eviction lemmas -/

lemma attemptsOnHead_cons (cfg : Config) (e : TickEnv) (es : List TickEnv)
    (st : TgState) :
    attemptsOnHead cfg (e :: es) st =
      (if (tick cfg { e with sendOk := false } st).1.queue.length <
          st.queue.length
       then netOps (tick cfg { e with sendOk := false } st).2
       else netOps (tick cfg { e with sendOk := false } st).2 +
         attemptsOnHead cfg es (tick cfg { e with sendOk := false } st).1) := by
  rcases h : tick cfg { e with sendOk := false } st with ⟨st1, a⟩
  simp [attemptsOnHead, h]

lemma attemptsOnHead_le (cfg : Config) :
    ∀ (envs : List TickEnv) (st : TgState) (m : OutboundMessage)
      (rest : List OutboundMessage),
      st.queue = m :: rest → m.retries ≤ cfg.maxMsgRetries →
      attemptsOnHead cfg envs st ≤ cfg.maxMsgRetries + 1 - m.retries := by
  intro envs
  induction envs with
  | nil =>
    intro st m rest hq hr
    simp [attemptsOnHead]
  | cons e es ih =>
    intro st m rest hq hr
    rw [attemptsOnHead_cons]
    rcases hw : e.wifiUp with _ | _
    · rw [tick_noconn cfg ⟨e.now, false, false⟩ st m rest hq rfl]
      dsimp only [netOps]
      rw [if_neg (Nat.lt_irrefl _)]
      have := ih st m rest hq hr
      omega
    · rcases hp : permitsSendNow cfg.sendIntervalMs st.lastSendTs e.now with
        _ | _
      · rw [tick_ratelimited cfg ⟨e.now, true, false⟩ st m rest hq rfl hp]
        dsimp only [netOps]
        rw [if_neg (Nat.lt_irrefl _)]
        have := ih st m rest hq hr
        omega
      · by_cases hrr : cfg.maxMsgRetries < m.retries + 1
        · rw [tick_fail_drop cfg ⟨e.now, true, false⟩ st m rest hq rfl hp
            rfl hrr]
          dsimp only [netOps]
          simp only [hq, List.length_cons]
          rw [if_pos (Nat.lt_succ_self _)]
          omega
        · rw [tick_fail_retry cfg ⟨e.now, true, false⟩ st m rest hq rfl hp
            rfl (by omega)]
          dsimp only [netOps]
          simp only [hq, List.length_cons]
          rw [if_neg (Nat.lt_irrefl _)]
          have hih := ih
            ({ st with
                queue := ({ m with retries := m.retries + 1 } :: rest),
                lastSendTs := e.now })
            ({ m with retries := m.retries + 1 }) rest rfl (by simp; omega)
          simp only at hih
          omega

/-! ### Line buffer lemmas -/

lemma writeByte_lineBuf_le (cfg : Config) (now : Nat) (st : TgState)
    (b : Char) (hL : 0 < cfg.lineBufSize)
    (h : st.lineBuf.length ≤ cfg.lineBufSize) :
    (writeByte cfg now st b).lineBuf.length ≤ cfg.lineBufSize := by
  unfold writeByte
  split_ifs with h1 h2
  · simp
  · simp
    omega
  · simp
    omega

lemma writeBytes_lineBuf_le (cfg : Config) (now : Nat)
    (hL : 0 < cfg.lineBufSize) :
    ∀ (bs : List Char) (st : TgState),
      st.lineBuf.length ≤ cfg.lineBufSize →
      (writeBytes cfg now bs st).lineBuf.length ≤ cfg.lineBufSize := by
  intro bs
  induction bs with
  | nil => intro st h; exact h
  | cons b rest ih =>
    intro st h
    exact ih _ (writeByte_lineBuf_le cfg now st b hL h)

/-! ### Claim theorems -/

/-- Claim C1: for every sequence of N `send()` calls with N greater than
the queue capacity Q, `queued()` never exceeds Q and the queue afterwards
contains exactly the most recent Q sent messages in FIFO order; enqueue
on a full queue evicts the head first and then appends at the tail,
never failing except when capacity is zero. -/
theorem sendBurst_drops_oldest_fifo (cfg : Config) (now : Nat)
    (texts : List (List Char)) (hQ : 0 < cfg.queueSize)
    (_hN : cfg.queueSize < texts.length) :
    (∀ n : Nat,
      (sendAll cfg now (texts.take n) initState).queue.length ≤
        cfg.queueSize) ∧
    (sendAll cfg now texts initState).queue.map OutboundMessage.text =
      (texts.map (clip cfg.lineBufSize)).drop
        (texts.length - cfg.queueSize) ∧
    (∀ (q : List OutboundMessage) (m : OutboundMessage),
      q.length = cfg.queueSize →
      enqueue cfg.queueSize q m = some (q.drop 1 ++ [m])) ∧
    (∀ (Q : Nat) (q : List OutboundMessage) (m : OutboundMessage),
      enqueue Q q m = none ↔ Q = 0) := by
  refine ⟨?_, ?_, ?_, ?_⟩
  · intro n
    rw [sendAll_queue]
    exact enqueueTexts_length_le cfg now hQ _ _ (by simp [initState])
  · rw [sendAll_queue]
    have h := enqueueTexts_map_text cfg now hQ texts [] (by simp)
    simpa [initState] using h
  · intro q m hqf
    exact enqueue_full cfg.queueSize q m (by omega) hqf
  · intro Q q m
    exact enqueue_eq_none_iff Q q m

/-- Witness for C1 at a concrete burst of three sends into capacity 2. -/
theorem sendBurst_drops_oldest_fifo_witness :
    (sendAll ⟨4, 2, 0, 0, FormatMode.plain⟩ 0
        [String.toList "a", String.toList "b", String.toList "c"]
        initState).queue.map OutboundMessage.text =
      ([String.toList "a", String.toList "b", String.toList "c"].map
          (clip 4)).drop 1 :=
  (sendBurst_drops_oldest_fifo ⟨4, 2, 0, 0, FormatMode.plain⟩ 0
      [String.toList "a", String.toList "b", String.toList "c"]
      (by decide) (by decide)).2.1

/-- Claim C2: on every single invocation of the tick operation
(`update()`), at most one network send operation is performed,
regardless of queue occupancy, connection state, or rate-limiter state. -/
theorem update_at_most_one_netop (cfg : Config) (e : TickEnv)
    (st : TgState) : netOps (tick cfg e st).2 ≤ 1 :=
  netOps_tick_le_one cfg e st

/-- Claim C3: `permitsSendNow(nowTs)` is true only if
`nowTs - lastSendTs ≥ minInterval`; every attempted send updates
`lastSendTs`; and in any run of ticks, two consecutive transport
attempts are separated by at least the configured minimum interval. -/
theorem sends_spaced_by_min_interval :
    (∀ minInterval lastSendTs nowTs : Nat,
      permitsSendNow minInterval lastSendTs nowTs = true ↔
        minInterval ≤ nowTs - lastSendTs) ∧
    (∀ (cfg : Config) (e : TickEnv) (st : TgState) (p : List Char)
        (ok : Bool),
      (tick cfg e st).2 = .attempt p ok →
      (tick cfg e st).1.lastSendTs = e.now) ∧
    (∀ (cfg : Config) (envs : List TickEnv) (st : TgState),
      List.Chain' (fun a b => cfg.sendIntervalMs ≤ b - a)
        (attemptTimes cfg envs st)) := by
  refine ⟨?_, ?_, ?_⟩
  · intro minInterval lastSendTs nowTs
    simp [permitsSendNow]
  · intro cfg e st p ok h
    exact (tick_attempt_facts cfg e st (by rw [h]; rfl)).1
  · intro cfg envs st
    exact (attemptTimes_spacing cfg envs st).1

/-- Witness for C3: a concrete tick that attempts a send records the
tick clock as the new `lastSendTs`. -/
theorem sends_spaced_by_min_interval_witness :
    (tick ⟨4, 2, 1, 0, FormatMode.plain⟩ ⟨5, true, true⟩
        ⟨[⟨String.toList "a", 0, 0⟩], [], 0⟩).1.lastSendTs = 5 :=
  sends_spaced_by_min_interval.2.1 ⟨4, 2, 1, 0, FormatMode.plain⟩
    ⟨5, true, true⟩ ⟨[⟨String.toList "a", 0, 0⟩], [], 0⟩
    (String.toList "a") true (by decide)

/-- Claim C4: with an always-failing transport, a queued message is
attempted at most `maxRetries + 1` times before it is removed; each
failure increments the head's retry counter, the head is removed once
the counter exceeds `maxRetries`, and otherwise stays at the head. -/
theorem message_attempt_bound :
    (∀ (cfg : Config) (envs : List TickEnv) (st : TgState)
        (m : OutboundMessage) (rest : List OutboundMessage),
      st.queue = m :: rest → m.retries = 0 →
      attemptsOnHead cfg envs st ≤ cfg.maxMsgRetries + 1) ∧
    (∀ (cfg : Config) (e : TickEnv) (st : TgState) (m : OutboundMessage)
        (rest : List OutboundMessage),
      st.queue = m :: rest → e.sendOk = false → e.wifiUp = true →
      permitsSendNow cfg.sendIntervalMs st.lastSendTs e.now = true →
      cfg.maxMsgRetries < m.retries + 1 →
      (tick cfg e st).1.queue = rest) ∧
    (∀ (cfg : Config) (e : TickEnv) (st : TgState) (m : OutboundMessage)
        (rest : List OutboundMessage),
      st.queue = m :: rest → e.sendOk = false → e.wifiUp = true →
      permitsSendNow cfg.sendIntervalMs st.lastSendTs e.now = true →
      m.retries + 1 ≤ cfg.maxMsgRetries →
      (tick cfg e st).1.queue =
        { m with retries := m.retries + 1 } :: rest) := by
  refine ⟨?_, ?_, ?_⟩
  · intro cfg envs st m rest hq h0
    have h := attemptsOnHead_le cfg envs st m rest hq (by omega)
    omega
  · intro cfg e st m rest hq hs hw hp hr
    rw [tick_fail_drop cfg e st m rest hq hw hp hs hr]
  · intro cfg e st m rest hq hs hw hp hr
    rw [tick_fail_retry cfg e st m rest hq hw hp hs hr]

/-- Witness for C4: a concrete all-failing run attempts the single
queued message at most `maxRetries + 1 = 1` time. -/
theorem message_attempt_bound_witness :
    attemptsOnHead ⟨4, 2, 0, 0, FormatMode.plain⟩
        [⟨1, true, true⟩, ⟨2, true, true⟩]
        ⟨[⟨String.toList "a", 0, 0⟩], [], 0⟩ ≤ 1 :=
  message_attempt_bound.1 ⟨4, 2, 0, 0, FormatMode.plain⟩
    [⟨1, true, true⟩, ⟨2, true, true⟩]
    ⟨[⟨String.toList "a", 0, 0⟩], [], 0⟩
    ⟨String.toList "a", 0, 0⟩ [] rfl rfl

/-- Claim C5: a message text longer than the configured line-buffer
limit L is stored (via `send`) with length exactly L, truncation marker
included, never more. -/
theorem long_text_stored_length (cfg : Config) (now : Nat) (st : TgState)
    (t : List Char) (hL : 0 < cfg.lineBufSize) (hQ : 0 < cfg.queueSize)
    (ht : cfg.lineBufSize < t.length) :
    (send cfg now st t).1.queue.getLast? =
      some ⟨clip cfg.lineBufSize t, 0, now⟩ ∧
    (clip cfg.lineBufSize t).length = cfg.lineBufSize := by
  constructor
  · rw [send_fst_queue]
    by_cases hf : st.queue.length = cfg.queueSize
    · rw [enqueue_full cfg.queueSize st.queue _ (by omega) hf]
      simp
    · rw [enqueue_not_full cfg.queueSize st.queue _ (by omega) hf]
      simp
  · unfold clip
    rw [if_neg (by omega)]
    simp
    omega

/-- Witness for C5: a four-character text through limit 2 is stored with
length exactly 2. -/
theorem long_text_stored_length_witness :
    (clip 2 (String.toList "abcd")).length = 2 :=
  (long_text_stored_length ⟨2, 1, 0, 0, FormatMode.plain⟩ 0 initState
      (String.toList "abcd") (by decide) (by decide) (by decide)).2

/-- Claim C6: the line buffer's length never exceeds its capacity L
after any sequence of byte writes; a byte whose append would exceed L
force-flushes the buffer to the queue as one message marked truncated,
the incoming byte starting a new line. -/
theorem lineBuf_bounded (cfg : Config) (now : Nat) (bs : List Char)
    (st : TgState) (b : Char) (hL : 0 < cfg.lineBufSize) :
    (st.lineBuf.length ≤ cfg.lineBufSize →
      (writeBytes cfg now bs st).lineBuf.length ≤ cfg.lineBufSize) ∧
    (b ≠ lineTerminator → st.lineBuf.length = cfg.lineBufSize →
      (writeByte cfg now st b).lineBuf = [b] ∧
      (writeByte cfg now st b).queue =
        (enqueueLine cfg now st
            (markTruncated cfg.lineBufSize st.lineBuf)).queue) := by
  constructor
  · intro h
    exact writeBytes_lineBuf_le cfg now hL bs st h
  · intro hb hfull
    unfold writeByte
    rw [if_neg hb, if_pos (le_of_eq hfull.symm)]
    exact ⟨rfl, rfl⟩

/-- Witness for C6: writing three bytes from the empty buffer keeps the
buffered length within the default limit. -/
theorem lineBuf_bounded_witness :
    (writeBytes defaultConfig 0 (String.toList "abc")
        initState).lineBuf.length ≤ 512 :=
  (lineBuf_bounded defaultConfig 0 (String.toList "abc") initState
      (Char.ofNat 97) (by decide)).1 (by decide)

/-- Claim C7: writing the bytes of "Hello" followed by a line terminator
through the byte-stream interface, starting from the empty state,
enqueues exactly one OutboundMessage with text "Hello" (terminator
excluded) and leaves the line buffer empty. -/
theorem hello_line_roundtrip :
    writeBytes defaultConfig 0
        (String.toList "Hello" ++ [lineTerminator]) initState =
      ⟨[⟨String.toList "Hello", 0, 0⟩], [], 0⟩ := by
  decide

/-- Claim C8: while disconnected, `send()` still grows the queue (below
capacity), a tick leaves the state untouched and performs no network
operation, and any tick that attempts a send has the link up. -/
theorem disconnected_queues_no_send :
    (∀ (cfg : Config) (now : Nat) (st : TgState) (t : List Char),
      st.queue.length < cfg.queueSize →
      (send cfg now st t).1.queue.length = st.queue.length + 1 ∧
      (send cfg now st t).2 = true) ∧
    (∀ (cfg : Config) (e : TickEnv) (st : TgState),
      e.wifiUp = false →
      (tick cfg e st).1 = st ∧ netOps (tick cfg e st).2 = 0) ∧
    (∀ (cfg : Config) (e : TickEnv) (st : TgState) (p : List Char)
        (ok : Bool),
      (tick cfg e st).2 = .attempt p ok → e.wifiUp = true) := by
  refine ⟨?_, ?_, ?_⟩
  · intro cfg now st t hlt
    rw [send_eq_not_full cfg now st t (by omega) (by omega)]
    simp
  · intro cfg e st hw
    rcases hq : st.queue with _ | ⟨m, rest⟩
    · rw [tick_empty cfg e st hq]
      exact ⟨rfl, rfl⟩
    · rw [tick_noconn cfg e st m rest hq hw]
      exact ⟨rfl, rfl⟩
  · intro cfg e st p ok h
    exact (tick_attempt_facts cfg e st (by rw [h]; rfl)).2.2

/-- Witness for C8: a concrete disconnected tick leaves the state alone
and performs no network operation. -/
theorem disconnected_queues_no_send_witness :
    (tick defaultConfig ⟨3, false, true⟩ initState).1 = initState ∧
    netOps (tick defaultConfig ⟨3, false, true⟩ initState).2 = 0 :=
  disconnected_queues_no_send.2.1 defaultConfig ⟨3, false, true⟩
    initState rfl

/-- Claim C9: the format mode affects only how a message's text is
rendered into the transport payload (monospace wraps it in the fixed
delimiter pair); queue, retry, rate-limit and eviction behavior is
identical between the two modes for every input sequence. -/
theorem format_mode_frame :
    (∀ (cfg : Config) (f1 f2 : FormatMode) (e : TickEnv) (st : TgState),
      (tick { cfg with fmt := f1 } e st).1 =
        (tick { cfg with fmt := f2 } e st).1 ∧
      erasePayload (tick { cfg with fmt := f1 } e st).2 =
        erasePayload (tick { cfg with fmt := f2 } e st).2) ∧
    (∀ (cfg : Config) (f1 f2 : FormatMode) (envs : List TickEnv)
        (st : TgState),
      runTicks { cfg with fmt := f1 } envs st =
        runTicks { cfg with fmt := f2 } envs st) ∧
    (∀ (cfg : Config) (f1 f2 : FormatMode) (now : Nat) (st : TgState)
        (t : List Char),
      send { cfg with fmt := f1 } now st t =
        send { cfg with fmt := f2 } now st t) ∧
    (∀ s : List Char,
      render FormatMode.monospace s = monoOpen ++ s ++ monoClose) ∧
    (∀ s : List Char, render FormatMode.plain s = s) := by
  have hstep : ∀ (cfg : Config) (f1 f2 : FormatMode) (e : TickEnv)
      (st : TgState),
      (tick { cfg with fmt := f1 } e st).1 =
        (tick { cfg with fmt := f2 } e st).1 ∧
      erasePayload (tick { cfg with fmt := f1 } e st).2 =
        erasePayload (tick { cfg with fmt := f2 } e st).2 := by
    intro cfg f1 f2 e st
    rcases hq : st.queue with _ | ⟨m, rest⟩
    · simp [tick, hq, erasePayload]
    · simp only [tick, hq]
      split_ifs <;> simp [erasePayload]
  refine ⟨hstep, ?_, ?_, fun s => rfl, fun s => rfl⟩
  · intro cfg f1 f2 envs
    induction envs with
    | nil => intro st; rfl
    | cons e es ih =>
      intro st
      show runTicks _ es (tick { cfg with fmt := f1 } e st).1 =
        runTicks _ es (tick { cfg with fmt := f2 } e st).1
      rw [(hstep cfg f1 f2 e st).1]
      exact ih _
  · intro cfg f1 f2 now st t
    rfl

/-- Claim C10: after `begin()`, the public `connected()` query returns
exactly the current state of the platform WiFi link: it is true if and
only if the WiFi status reports connected. -/
theorem connected_iff_wl_connected (w : WlStatus) :
    connected w = true ↔ w = WlStatus.wlConnected := by
  cases w <;> simp [connected]

/-- Witness for C10: `connected` holds at the connected status. -/
theorem connected_iff_wl_connected_witness :
    connected WlStatus.wlConnected = true :=
  (connected_iff_wl_connected WlStatus.wlConnected).mpr rfl

end TelegramSerial
